import Mathlib

/-!
Verification of the compilation-database recorder
(`internal/arduino/builder/internal/compilation/database.go`) and of the
IDE-preferences fragment of the compile command (`commands/compile/compile.go`).

The Go code is shallowly embedded:

* JSON documents are the inductive type `Json`; the byte-level output of
  `json.MarshalIndent(v, "", " ")` is the function `renderJson` below.
* The filesystem is a map from paths to file contents; a file's content is
  either a well-formed JSON document or malformed bytes, and write failures
  are modelled by a per-path `writeOk` flag.  `os.Getwd` is modelled by an
  `Option String` argument (`none` = the lookup failed).
* Messages printed with `fmt.Println` are collected in a `List String` of
  diagnostics returned alongside the result.
-/

namespace Compilation

/-- A JSON document value (the data manipulated by `encoding/json`). -/
inductive Json where
  | null
  | bool (b : Bool)
  | num (n : Int)
  | str (s : String)
  | arr (elems : List Json)
  | obj (members : List (String × Json))
deriving Repr

/-- Mirrors the Go struct `Command` of database.go (lines 36-41): one record of
the compilation database, with JSON tags
`directory`, `command,omitempty`, `arguments,omitempty`, `file`. -/
structure Command where
  directory : String
  command : String
  arguments : List String
  file : String
deriving Repr, DecidableEq

/-- The zero value of the Go struct `Command`: `json.Unmarshal` starts from it
when decoding an object into a fresh slice element. -/
def zeroCommand : Command :=
  { directory := "", command := "", arguments := [], file := "" }

/-- Mirrors the Go struct `Database` of database.go (lines 30-33): the recorded
commands plus the path the database is bound to (`File *paths.Path`, modelled
as the path string). -/
structure Database where
  Contents : List Command
  File : String
deriving Repr, DecidableEq

/-- Slice of `paths.Process` that `Database.Add` consumes: `GetDir` returns the
explicitly configured working directory (empty string when unset) and
`GetArgs` the argument vector of the invocation. -/
structure Process where
  dir : String
  args : List String
deriving Repr, DecidableEq

/-- Content of a file as seen through `encoding/json`: either bytes that parse
as a JSON document (`doc`), or bytes that are not well-formed JSON
(`malformed`). -/
inductive FileContent where
  | doc (j : Json)
  | malformed (bytes : String)

/-- The filesystem: `files p` is the readable content of path `p` (`none` when
the file cannot be read: missing, permission denied, I/O error), and
`writeOk p` tells whether a write to `p` succeeds. -/
structure FS where
  files : String → Option FileContent
  writeOk : String → Bool

/-! ### Marshalling (`json.Marshal` on `[]Command`, per the struct tags) -/

/-- JSON object produced by `json.Marshal` for one `Command`: fields in struct
declaration order `directory`, `command`, `arguments`, `file`, with `command`
and `arguments` dropped when empty (`omitempty` drops the empty string and
both nil and empty slices). -/
def encodeCommand (c : Command) : Json :=
  Json.obj
    ([("directory", Json.str c.directory)]
      ++ (if c.command = "" then [] else [("command", Json.str c.command)])
      ++ (if c.arguments = [] then [] else
            [("arguments", Json.arr (c.arguments.map Json.str))])
      ++ [("file", Json.str c.file)])

/-- JSON document produced by `json.Marshal` for a `[]Command` value: the array
of the encoded entries, in order.  On this data (strings and string slices
only) `Marshal` can never fail, so the encoder is total. -/
def marshalContents (l : List Command) : Json :=
  Json.arr (l.map encodeCommand)

/-! ### Byte-level rendering (`json.MarshalIndent(v, "", " ")`) -/

/-- Hexadecimal digit character used by `encoding/json` escapes (lowercase). -/
def hexDigit (n : Nat) : Char :=
  if n < 10 then Char.ofNat (48 + n) else Char.ofNat (97 + n - 10)

/-- Escape of one character inside a JSON string, as `encoding/json` emits it
with its default HTML escaping: quote, backslash, newline, carriage return and
tab get two-character escapes; the other control characters, plus the
HTML-unsafe characters and U+2028/U+2029, get a four-digit u-escape; everything
else is emitted verbatim. -/
def escapeChar (c : Char) : String :=
  if c = '"' then "\\\""
  else if c = '\\' then "\\\\"
  else if c = '\n' then "\\n"
  else if c = '\r' then "\\r"
  else if c = '\t' then "\\t"
  else if c.toNat < 32 ∨ c = '<' ∨ c = '>' ∨ c = '&'
       ∨ c.toNat = 8232 ∨ c.toNat = 8233 then
    "\\u" ++ String.mk [hexDigit (c.toNat / 4096 % 16), hexDigit (c.toNat / 256 % 16),
                        hexDigit (c.toNat / 16 % 16), hexDigit (c.toNat % 16)]
  else String.singleton c

/-- A JSON string literal: the escaped characters between double quotes. -/
def jsonQuote (s : String) : String :=
  "\"" ++ String.join (s.toList.map escapeChar) ++ "\""

/-- Indentation in front of a value nested at depth `d`, for
`MarshalIndent(v, "", " ")`: `d` copies of the one-space indent string. -/
def indentStr (d : Nat) : String :=
  String.join (List.replicate d " ")

mutual

/-- Bytes produced by `json.MarshalIndent(v, "", " ")` for the document `v` at
nesting depth `d`: every array element and object member sits on its own line,
indented one space per depth level, with `": "` between a key and its value;
empty arrays and objects stay on one line. -/
def renderJson (d : Nat) : Json → String
  | Json.null => "null"
  | Json.bool b => cond b "true" "false"
  | Json.num n => toString n
  | Json.str s => jsonQuote s
  | Json.arr [] => "[]"
  | Json.arr (x :: xs) =>
      "[\n" ++ indentStr (d + 1) ++ renderJson (d + 1) x ++ renderArrTail (d + 1) xs
        ++ "\n" ++ indentStr d ++ "]"
  | Json.obj [] => "\x7b\x7d"
  | Json.obj ((k, v) :: rest) =>
      "\x7b\n" ++ indentStr (d + 1) ++ jsonQuote k ++ ": " ++ renderJson (d + 1) v
        ++ renderObjTail (d + 1) rest ++ "\n" ++ indentStr d ++ "\x7d"

/-- Remaining elements of a non-empty rendered array, each after a comma and a
line break. -/
def renderArrTail (d : Nat) : List Json → String
  | [] => ""
  | x :: xs => ",\n" ++ indentStr d ++ renderJson d x ++ renderArrTail d xs

/-- Remaining members of a non-empty rendered object, each after a comma and a
line break. -/
def renderObjTail (d : Nat) : List (String × Json) → String
  | [] => ""
  | (k, v) :: rest =>
      ",\n" ++ indentStr d ++ jsonQuote k ++ ": " ++ renderJson d v ++ renderObjTail d rest

end

/-- Bytes written by `SaveToFile`: `json.MarshalIndent(db.Contents, "", " ")`. -/
def marshalIndent (l : List Command) : String :=
  renderJson 0 (marshalContents l)

/-! ### Unmarshalling (`json.Unmarshal` into `[]Command`) -/

/-- Lowercasing of one ASCII letter, used for `encoding/json`'s
case-insensitive matching of object keys against struct field tags. -/
def lowerChar (c : Char) : Char :=
  if 65 ≤ c.toNat ∧ c.toNat ≤ 90 then Char.ofNat (c.toNat + 32) else c

/-- Whether an object key matches a struct field tag: `encoding/json` accepts
an exact match or a case-insensitive one. -/
def keyMatch (k field : String) : Bool :=
  k.toList.map lowerChar == field.toList.map lowerChar

/-- Decoding of a JSON value into a string-typed struct field holding `cur`:
a JSON string overwrites the field, JSON `null` leaves it unchanged, and any
other value is a type error. -/
def decodeStringField (cur : String) (v : Json) : Option String :=
  match v with
  | Json.null => some cur
  | Json.str s => some s
  | _ => none

/-- Decoding of one element of a JSON array into a `string` slice element: a
string is taken as-is, and `null` is silently ignored, leaving the element at
its zero value, the empty string (Go stores nothing for `null` into a string
and reports no error). -/
def decodeStringItem : Json → Option String
  | Json.str s => some s
  | Json.null => some ""
  | _ => none

/-- Decoding of a JSON array into a `[]string`, element by element. -/
def decodeStringList : List Json → Option (List String)
  | [] => some []
  | x :: xs =>
      match decodeStringItem x, decodeStringList xs with
      | some s, some rest => some (s :: rest)
      | _, _ => none

/-- Decoding of a JSON value into the `Arguments []string` field: an array of
strings overwrites it, `null` sets the slice to nil (the empty list, as Go
zeroes slices on `null`), anything else is a type error. -/
def decodeArgumentsField (_cur : List String) (v : Json) : Option (List String) :=
  match v with
  | Json.null => some []
  | Json.arr xs => decodeStringList xs
  | _ => none

/-- Effect of one JSON object member on a partially decoded `Command`:
the four tagged fields are matched (case-insensitively, as `encoding/json`
does) and unknown keys are ignored. -/
def applyField (c : Command) (kv : String × Json) : Option Command :=
  if keyMatch kv.1 "directory" then
    (decodeStringField c.directory kv.2).map (fun s => { c with directory := s })
  else if keyMatch kv.1 "command" then
    (decodeStringField c.command kv.2).map (fun s => { c with command := s })
  else if keyMatch kv.1 "arguments" then
    (decodeArgumentsField c.arguments kv.2).map (fun a => { c with arguments := a })
  else if keyMatch kv.1 "file" then
    (decodeStringField c.file kv.2).map (fun s => { c with file := s })
  else some c

/-- Sequential decoding of an object's members into a `Command`, later
members overriding earlier ones, as `encoding/json` processes them. -/
def decodeFields (c : Command) : List (String × Json) → Option Command
  | [] => some c
  | kv :: rest =>
      match applyField c kv with
      | some c2 => decodeFields c2 rest
      | none => none

/-- Decoding of one JSON array element into a `Command`: an object is decoded
member by member starting from the zero value; `null` leaves the zero value;
anything else is a type error. -/
def decodeCommand : Json → Option Command
  | Json.obj members => decodeFields zeroCommand members
  | Json.null => some zeroCommand
  | _ => none

/-- Decoding of a JSON array into a list of commands, element by element. -/
def decodeCommandList : List Json → Option (List Command)
  | [] => some []
  | x :: xs =>
      match decodeCommand x, decodeCommandList xs with
      | some c, some rest => some (c :: rest)
      | _, _ => none

/-- Effect of `json.Unmarshal(bytes, &contents)` for `contents : []Command`:
a JSON array is decoded element by element, JSON `null` sets the slice to nil,
and any other document is a type error.  (On error Go may leave the slice
partially filled; the partial fill is not modelled, only the error itself.) -/
def decodeContents : Json → Option (List Command)
  | Json.null => some []
  | Json.arr xs => decodeCommandList xs
  | _ => none

/-! ### The four operations of database.go -/

/-- Mirrors `NewDatabase` (database.go lines 44-49): an empty database bound to
the given path.  It takes no filesystem and returns none: it touches no file. -/
def NewDatabase (filename : String) : Database :=
  { File := filename, Contents := [] }

/-- Errors `LoadDatabase` can return: the read error from `file.ReadFile` or
the parse error from `json.Unmarshal`. -/
inductive DbError where
  | readError
  | parseError
deriving Repr, DecidableEq

/-- Mirrors `LoadDatabase` (database.go lines 52-59).  Go returns the pair
`(*Database, error)`: `(nil, err)` when the read fails, and otherwise the
fresh database bound to `file` together with the result of unmarshalling into
its `Contents`. -/
def LoadDatabase (fs : FS) (file : String) : Option Database × Option DbError :=
  match fs.files file with
  | none => (none, some DbError.readError)
  | some content =>
      let res := NewDatabase file
      match content with
      | FileContent.malformed _ => (some res, some DbError.parseError)
      | FileContent.doc j =>
          match decodeContents j with
          | none => (some res, some DbError.parseError)
          | some cmds => (some { res with Contents := cmds }, none)

/-- Diagnostic printed by `SaveToFile` when the file write fails. -/
def writeErrorMessage : String :=
  "Error writing compilation database"

/-- Mirrors `SaveToFile` (database.go lines 63-70).  `json.MarshalIndent`
cannot fail on this data, so the serialization-error branch of the source is
unreachable; a failing write leaves the filesystem unchanged and prints a
diagnostic.  The function is total: no error is ever returned to the caller. -/
def SaveToFile (db : Database) (fs : FS) : FS × List String :=
  if fs.writeOk db.File then
    ({ fs with
        files := fun p =>
          if p = db.File then some (FileContent.doc (marshalContents db.Contents))
          else fs.files p },
      [])
  else
    (fs, [writeErrorMessage])

/-- Diagnostic printed by `Add` when `os.Getwd` fails. -/
def getwdErrorMessage : String :=
  "Error getting current directory for compilation database"

/-- Directory recorded by `Add`: the process's configured directory when set,
otherwise the current working directory; when the `os.Getwd` lookup fails Go
keeps its zero-value result, the empty string. -/
def resolvedDir (command : Process) (cwd : Option String) : String :=
  if command.dir = "" then
    match cwd with
    | some d => d
    | none => ""
  else command.dir

/-- Entry built by `Add` (database.go lines 85-89): the resolved directory, the
argument vector from `GetArgs`, the target path; the `Command` string field is
never set by `Add` and stays at its zero value. -/
def addedEntry (target : String) (command : Process) (cwd : Option String) : Command :=
  { directory := resolvedDir command cwd
    command := ""
    arguments := command.args
    file := target }

/-- Mirrors `Add` (database.go lines 73-92).  `cwd` is the result of
`os.Getwd` (`none` when the lookup fails, which only prints a diagnostic); the
new entry is appended to `Contents` in every case. -/
def Add (db : Database) (target : String) (command : Process) (cwd : Option String) :
    Database × List String :=
  let diags : List String :=
    if command.dir = "" ∧ cwd = none then [getwdErrorMessage] else []
  ({ db with Contents := db.Contents ++ [addedEntry target command cwd] }, diags)

/-- Database reached from `db` after one `Add` per element of `calls`, in
order (each call gives the target, the process and the `os.Getwd` result). -/
def addAll (db : Database) (calls : List (String × Process × Option String)) : Database :=
  calls.foldl (fun d c => (Add d c.1 c.2.1 c.2.2).1) db

/-- Well-formedness of one entry, as the spec states it: exactly one of the
command string and the argument vector is populated. -/
def wellFormed (c : Command) : Prop :=
  (c.command ≠ "" ∧ c.arguments = []) ∨ (c.command = "" ∧ c.arguments ≠ [])

instance (c : Command) : Decidable (wellFormed c) := by
  unfold wellFormed
  infer_instance

end Compilation

namespace Compile

/-- Go `strings.HasPrefix`, over the characters of the strings. -/
def strHasPrefix (s pre : String) : Bool :=
  pre.toList.isPrefixOf s.toList

/-- Go `strings.HasSuffix`, over the characters of the strings. -/
def strHasSuffix (s suf : String) : Bool :=
  suf.toList.isSuffixOf s.toList

/-- Lexicographic order on character lists, by code point; for the ASCII keys
involved here it coincides with Go's byte-wise string order. -/
def charListLe : List Char → List Char → Bool
  | [], _ => true
  | _ :: _, [] => false
  | a :: as, b :: bs =>
      if a.toNat < b.toNat then true
      else if b.toNat < a.toNat then false
      else charListLe as bs

/-- Go's string order `a <= b`, used by `sort.Strings`. -/
def strLe (a b : String) : Bool :=
  charListLe a.toList b.toList

/-- Insertion of a string into an already sorted list, keeping it sorted. -/
def insertSorted (x : String) : List String → List String
  | [] => [x]
  | y :: ys => if strLe x y then x :: y :: ys else y :: insertSorted x ys

/-- Result of `sort.Strings`: the input sorted in ascending string order
(modelled by insertion sort, which yields the same sorted sequence). -/
def sortStrings (l : List String) : List String :=
  l.foldr insertSorted []

/-- Mirrors `Map.SubTree` of the properties library used by compile.go: the
pairs whose key starts with `rootKey` followed by a dot, with that prefix
stripped from the key.  Preferences maps are modelled as association lists. -/
def subTree (m : List (String × String)) (rootKey : String) : List (String × String) :=
  m.filterMap (fun kv =>
    if strHasPrefix kv.1 (rootKey ++ ".") then
      some (kv.1.drop (rootKey ++ ".").length, kv.2)
    else none)

/-- Keys of the `last.ide` subtree of the loaded IDE preferences that end in
`.hardwarepath`, sorted as `sort.Strings` leaves them (compile.go lines
240-248).  Go collects them by ranging over a map, whose order is arbitrary,
and then sorts, so the sorted list is the canonical outcome. -/
def hardwarePathVariants (ideProperties : List (String × String)) : List String :=
  let lastIdeSub := subTree (subTree ideProperties "last") "ide"
  sortStrings ((lastIdeSub.map Prod.fst).filter (fun k => strHasSuffix k ".hardwarepath"))

/-- Mirrors the key selection `pathVariants[len(pathVariants)-1]` of
compile.go line 249: the last element of the sorted variant list.  When the
list is empty the Go expression indexes position `-1` and panics; the panic is
modelled by `none`. -/
def ideHardwarePathKey (ideProperties : List (String × String)) : Option String :=
  (hardwarePathVariants ideProperties).getLast?

end Compile

namespace Compilation

/-- A filesystem with no readable file on which every write succeeds. -/
def fsEmpty : FS :=
  { files := fun _ => none, writeOk := fun _ => true }

/-- A filesystem on which every write fails. -/
def fsReadOnly : FS :=
  { files := fun _ => none, writeOk := fun _ => false }

/-- Two database files that are not well-formed JSON arrays matching the
schema, yet are accepted by `json.Unmarshal`: one whose whole contents are the
JSON document `null` (which only zeroes the slice), and one with a `null`
element inside the `arguments` array (which Go silently ignores, leaving the
empty string). -/
def fsAcceptsNull : FS :=
  { files := fun p =>
      if p = "null.json" then some (FileContent.doc Json.null)
      else if p = "nullarg.json" then
        some (FileContent.doc (Json.arr [Json.obj
          [("directory", Json.str "/d"),
           ("arguments", Json.arr [Json.str "gcc", Json.null]),
           ("file", Json.str "a.c")]]))
      else none,
    writeOk := fun _ => true }

/-- A database file whose single record carries both a command string and an
argument vector; `json.Unmarshal` accepts it without complaint. -/
def fsBothForms : FS :=
  { files := fun p =>
      if p = "compile_commands.json" then
        some (FileContent.doc (Json.arr [Json.obj
          [("directory", Json.str "/d"),
           ("command", Json.str "gcc -c a.c"),
           ("arguments", Json.arr [Json.str "gcc", Json.str "-c", Json.str "a.c"]),
           ("file", Json.str "a.c")]]))
      else none,
    writeOk := fun _ => true }

/-! ### Helper lemmas -/

@[simp] lemma keyMatch_directory : keyMatch "directory" "directory" = true := by decide

@[simp] lemma keyMatch_command_directory : keyMatch "command" "directory" = false := by decide

@[simp] lemma keyMatch_command_command : keyMatch "command" "command" = true := by decide

@[simp] lemma keyMatch_arguments_directory : keyMatch "arguments" "directory" = false := by decide

@[simp] lemma keyMatch_arguments_command : keyMatch "arguments" "command" = false := by decide

@[simp] lemma keyMatch_arguments_arguments : keyMatch "arguments" "arguments" = true := by decide

@[simp] lemma keyMatch_file_directory : keyMatch "file" "directory" = false := by decide

@[simp] lemma keyMatch_file_command : keyMatch "file" "command" = false := by decide

@[simp] lemma keyMatch_file_arguments : keyMatch "file" "arguments" = false := by decide

@[simp] lemma keyMatch_file_file : keyMatch "file" "file" = true := by decide

lemma decodeStringList_map_str (l : List String) :
    decodeStringList (l.map Json.str) = some l := by
  induction l with
  | nil => rfl
  | cons x xs ih => simp [decodeStringList, decodeStringItem, ih]

lemma decodeCommand_encodeCommand (c : Command) :
    decodeCommand (encodeCommand c) = some c := by
  obtain ⟨cd, cc, ca, cf⟩ := c
  by_cases hc : cc = "" <;> by_cases ha : ca = [] <;>
    simp [encodeCommand, decodeCommand, hc, ha, decodeFields, applyField, zeroCommand,
      decodeStringField, decodeArgumentsField, decodeStringList_map_str]

lemma decodeCommandList_encode (l : List Command) :
    decodeCommandList (l.map encodeCommand) = some l := by
  induction l with
  | nil => rfl
  | cons c cs ih => simp [decodeCommandList, decodeCommand_encodeCommand, ih]

lemma decodeContents_marshalContents (l : List Command) :
    decodeContents (marshalContents l) = some l := by
  simp [marshalContents, decodeContents, decodeCommandList_encode]

@[simp] lemma jsonQuote_directory_key : jsonQuote "directory" = "\"directory\"" := rfl

@[simp] lemma jsonQuote_command_key : jsonQuote "command" = "\"command\"" := rfl

@[simp] lemma jsonQuote_file_key : jsonQuote "file" = "\"file\"" := rfl

@[simp] lemma indentStr_zero : indentStr 0 = "" := rfl

@[simp] lemma indentStr_one : indentStr 1 = " " := rfl

@[simp] lemma indentStr_two : indentStr 2 = "  " := rfl

lemma addAll_contents (db : Database) (calls : List (String × Process × Option String)) :
    (addAll db calls).Contents
      = db.Contents ++ calls.map (fun c => addedEntry c.1 c.2.1 c.2.2) := by
  induction calls generalizing db with
  | nil => simp [addAll]
  | cons c cs ih =>
      simp only [addAll, List.foldl_cons, List.map_cons]
      rw [show (List.foldl (fun d c => (Add d c.1 c.2.1 c.2.2).1) (Add db c.1 c.2.1 c.2.2).1 cs)
            = addAll (Add db c.1 c.2.1 c.2.2).1 cs from rfl, ih]
      simp [Add, List.append_assoc]

/-! ### Claim theorems -/

/-- Claim C1: on a database all of whose entries are well-formed, saving to the
bound path and loading that path back yields a database with the same entries,
in the same order, with identical field values, bound to the same path. -/
theorem save_load_roundtrip (db : Database) (fs : FS)
    (hwf : ∀ c ∈ db.Contents, wellFormed c) (hw : fs.writeOk db.File = true) :
    LoadDatabase (SaveToFile db fs).1 db.File
      = (some { Contents := db.Contents, File := db.File }, none) := by
  have _ := hwf
  simp [SaveToFile, hw, LoadDatabase, decodeContents_marshalContents, NewDatabase]

/-- Witness for C1 at a concrete database and filesystem. -/
theorem save_load_roundtrip_witness :
    LoadDatabase
        (SaveToFile ⟨[⟨"/dir", "gcc -c a.c", [], "a.c"⟩], "/out/compile_commands.json"⟩ fsEmpty).1
        "/out/compile_commands.json"
      = (some ⟨[⟨"/dir", "gcc -c a.c", [], "a.c"⟩], "/out/compile_commands.json"⟩, none) :=
  save_load_roundtrip ⟨[⟨"/dir", "gcc -c a.c", [], "a.c"⟩], "/out/compile_commands.json"⟩
    fsEmpty (by decide) rfl

/-- Claim C2: each `Add` appends exactly one entry at the end, leaving every
earlier entry in place, and a whole sequence of `Add` calls produces the
entries in call order. -/
theorem add_appends_in_order (db : Database) (target : String) (command : Process)
    (cwd : Option String) (calls : List (String × Process × Option String)) :
    (Add db target command cwd).1.Contents = db.Contents ++ [addedEntry target command cwd]
    ∧ (Add db target command cwd).1.Contents.length = db.Contents.length + 1
    ∧ (addAll db calls).Contents
        = db.Contents ++ calls.map (fun c => addedEntry c.1 c.2.1 c.2.2) :=
  ⟨rfl, by simp [Add], addAll_contents db calls⟩

/-- Claim C3: the entry appended by `Add` records the process's explicit
working directory verbatim when one is set, and the current working directory
returned by `os.Getwd` when the explicit directory is empty. -/
theorem add_directory_resolution (db : Database) (target : String) (command : Process)
    (cwd : Option String) :
    (Add db target command cwd).1.Contents.getLast? = some (addedEntry target command cwd)
    ∧ (command.dir ≠ "" → (addedEntry target command cwd).directory = command.dir)
    ∧ (∀ d, command.dir = "" → cwd = some d → (addedEntry target command cwd).directory = d) := by
  refine ⟨?_, ?_, ?_⟩
  · simp [Add]
  · intro h
    simp [addedEntry, resolvedDir, h]
  · intro d h hc
    simp [addedEntry, resolvedDir, h, hc]

/-- Witness for C3: an explicit directory is kept verbatim, and an empty one
falls back to the current working directory. -/
theorem add_directory_resolution_witness :
    (addedEntry "a.c" ⟨"/work", ["gcc"]⟩ (some "/cwd")).directory = "/work"
    ∧ (addedEntry "a.c" ⟨"", ["gcc"]⟩ (some "/cwd")).directory = "/cwd" :=
  ⟨(add_directory_resolution ⟨[], "p"⟩ "a.c" ⟨"/work", ["gcc"]⟩ (some "/cwd")).2.1 (by decide),
   (add_directory_resolution ⟨[], "p"⟩ "a.c" ⟨"", ["gcc"]⟩ (some "/cwd")).2.2 "/cwd" rfl rfl⟩

/-- Claim C5: neither `SaveToFile` nor `Add` propagates a failure.  A failing
write leaves the filesystem unchanged and only emits a diagnostic, a
successful save emits none, and `Add` appends its entry in every case, merely
emitting a diagnostic when the working-directory lookup fails. -/
theorem save_add_never_fail (db : Database) (fs : FS) (target : String)
    (command : Process) (cwd : Option String) :
    (fs.writeOk db.File = false → SaveToFile db fs = (fs, [writeErrorMessage]))
    ∧ (fs.writeOk db.File = true → (SaveToFile db fs).2 = [])
    ∧ (Add db target command cwd).1.Contents = db.Contents ++ [addedEntry target command cwd]
    ∧ (command.dir = "" → cwd = none → (Add db target command cwd).2 = [getwdErrorMessage]) := by
  refine ⟨?_, ?_, rfl, ?_⟩
  · intro h
    simp [SaveToFile, h]
  · intro h
    simp [SaveToFile, h]
  · intro h hc
    simp [Add, h, hc]

/-- Witness for C5: a failed write and a failed directory lookup, both
degrading to diagnostics. -/
theorem save_add_never_fail_witness :
    SaveToFile ⟨[], "/out.json"⟩ fsReadOnly = (fsReadOnly, [writeErrorMessage])
    ∧ (Add ⟨[], "/out.json"⟩ "a.c" ⟨"", ["gcc"]⟩ none).2 = [getwdErrorMessage] :=
  ⟨(save_add_never_fail ⟨[], "/out.json"⟩ fsReadOnly "a.c" ⟨"", ["gcc"]⟩ none).1 rfl,
   (save_add_never_fail ⟨[], "/out.json"⟩ fsReadOnly "a.c" ⟨"", ["gcc"]⟩ none).2.2.2 rfl rfl⟩

/-- Counterexample to C4 as stated: `LoadDatabase` does not err on every
document that fails to be a well-formed JSON array matching the schema.  A
file containing just `null` loads without error as an empty database, and a
record with a `null` element inside `arguments` loads without error as the
empty string — both outside the schema, both accepted, refuting the claim's
"returns an error exactly when" biconditional. -/
theorem load_accepts_non_array_json :
    LoadDatabase fsAcceptsNull "null.json" = (some ⟨[], "null.json"⟩, none)
    ∧ LoadDatabase fsAcceptsNull "nullarg.json"
        = (some ⟨[⟨"/d", "", ["gcc", ""], "a.c"⟩], "nullarg.json"⟩, none) :=
  ⟨by decide, by decide⟩

/-- Claim C4 as amended: `LoadDatabase` errs exactly on unreadable files (read
error, with no database returned) and on contents that fail Go's
unmarshalling into the record slice (parse error) — a strictly smaller set
than "not a well-formed JSON array matching the schema", since a top-level
`null` and `null` field or element values are accepted without error; on
success the returned database is bound to the loaded path.  The embedding is
pure, so loading cannot mutate any previously constructed database. -/
theorem load_error_classification (fs : FS) (path : String) :
    (fs.files path = none → LoadDatabase fs path = (none, some DbError.readError))
    ∧ (∀ s, fs.files path = some (FileContent.malformed s) →
        LoadDatabase fs path = (some (NewDatabase path), some DbError.parseError))
    ∧ (∀ j, fs.files path = some (FileContent.doc j) → decodeContents j = none →
        LoadDatabase fs path = (some (NewDatabase path), some DbError.parseError))
    ∧ (∀ j l, fs.files path = some (FileContent.doc j) → decodeContents j = some l →
        LoadDatabase fs path = (some { Contents := l, File := path }, none))
    ∧ ((LoadDatabase fs path).2 = none
        ↔ ∃ j l, fs.files path = some (FileContent.doc j) ∧ decodeContents j = some l)
    ∧ (∀ db, LoadDatabase fs path = (some db, none) → db.File = path) := by
  refine ⟨?_, ?_, ?_, ?_, ?_, ?_⟩
  · intro h
    simp [LoadDatabase, h]
  · intro s h
    simp [LoadDatabase, h]
  · intro j h hd
    simp [LoadDatabase, h, hd]
  · intro j l h hd
    simp [LoadDatabase, h, hd, NewDatabase]
  · rcases h : fs.files path with _ | content
    · simp [LoadDatabase, h]
    · rcases content with j | s
      · rcases hd : decodeContents j with _ | l
        · simp [LoadDatabase, h, hd]
        · simp [LoadDatabase, h, hd]
      · simp [LoadDatabase, h]
  · intro db hdb
    rcases h : fs.files path with _ | content
    · simp [LoadDatabase, h] at hdb
    · rcases content with j | s
      · rcases hd : decodeContents j with _ | l
        · simp [LoadDatabase, h, hd] at hdb
        · simp [LoadDatabase, h, hd, NewDatabase] at hdb
          subst hdb
          rfl
      · simp [LoadDatabase, h] at hdb

/-- Witness for C4: a missing file yields a read error and no database. -/
theorem load_error_classification_witness :
    LoadDatabase fsEmpty "/nowhere.json" = (none, some DbError.readError) :=
  (load_error_classification fsEmpty "/nowhere.json").1 rfl

/-- Claim C8: `NewDatabase` yields a database with zero entries bound to the
given path while touching no file (it neither reads nor produces a
filesystem), and saving it writes the empty JSON array document, whose bytes
are exactly the literal `[]`. -/
theorem save_empty_database (p : String) (fs : FS) :
    (NewDatabase p).Contents = [] ∧ (NewDatabase p).File = p
    ∧ marshalIndent [] = "[]"
    ∧ (fs.writeOk p = true →
        (SaveToFile (NewDatabase p) fs).1.files p
          = some (FileContent.doc (Json.arr []))) := by
  refine ⟨rfl, rfl, rfl, ?_⟩
  intro hw
  simp [SaveToFile, NewDatabase, hw, marshalContents]

/-- Witness for C8 at a concrete path and filesystem. -/
theorem save_empty_database_witness :
    (SaveToFile (NewDatabase "/out/compile_commands.json") fsEmpty).1.files
        "/out/compile_commands.json"
      = some (FileContent.doc (Json.arr [])) :=
  (save_empty_database "/out/compile_commands.json" fsEmpty).2.2.2 rfl

/-- Counterexample to C9 as stated: `LoadDatabase` accepts a record that
carries both a command string and an argument vector, so after this sequence
of operations the database holds an entry with both representations
populated. -/
theorem load_violates_exactly_one :
    LoadDatabase fsBothForms "compile_commands.json"
      = (some ⟨[⟨"/d", "gcc -c a.c", ["gcc", "-c", "a.c"], "a.c"⟩], "compile_commands.json"⟩,
         none)
    ∧ ¬ wellFormed ⟨"/d", "gcc -c a.c", ["gcc", "-c", "a.c"], "a.c"⟩ :=
  ⟨by decide, by decide⟩

/-- Claim C9 as amended: every entry produced by `Add` has an empty command
string and carries the process argument vector, so it satisfies the
exactly-one invariant whenever that vector is non-empty; `LoadDatabase` does
not validate the invariant, so loaded entries may break it. -/
theorem add_entry_exactly_one (db : Database) (target : String) (command : Process)
    (cwd : Option String) (h : command.args ≠ []) :
    (Add db target command cwd).1.Contents.getLast? = some (addedEntry target command cwd)
    ∧ (addedEntry target command cwd).command = ""
    ∧ (addedEntry target command cwd).arguments = command.args
    ∧ wellFormed (addedEntry target command cwd) :=
  ⟨by simp [Add], rfl, rfl, Or.inr ⟨rfl, h⟩⟩

/-- Witness for the amended C9 at a concrete invocation. -/
theorem add_entry_exactly_one_witness :
    wellFormed (addedEntry "a.c" ⟨"/w", ["gcc", "-c", "a.c"]⟩ none) :=
  (add_entry_exactly_one ⟨[], "p"⟩ "a.c" ⟨"/w", ["gcc", "-c", "a.c"]⟩ none (by decide)).2.2.2

end Compilation

namespace Compile

lemma insertSorted_ne_nil (x : String) (l : List String) : insertSorted x l ≠ [] := by
  cases l with
  | nil => simp [insertSorted]
  | cons y ys =>
      simp only [insertSorted]
      split <;> simp

lemma sortStrings_eq_nil_iff (l : List String) : sortStrings l = [] ↔ l = [] := by
  cases l with
  | nil => simp [sortStrings]
  | cons y ys =>
      simp only [sortStrings, List.foldr_cons]
      constructor
      · intro h
        exact absurd h (insertSorted_ne_nil _ _)
      · intro h
        exact absurd h (by simp)

/-- Counterexample to C10 as stated: a preferences file that loads fine (its
`last.ide` subtree is even non-empty) but has no key ending in
`.hardwarepath`, so the selected key is `none` — the Go expression
`pathVariants[len(pathVariants)-1]` indexes an empty slice and panics. -/
theorem ide_hardware_path_counterexample :
    ideHardwarePathKey [("last.ide.1.8.5.somekey", "/v")] = none
    ∧ subTree (subTree [("last.ide.1.8.5.somekey", "/v")] "last") "ide"
        = [("1.8.5.somekey", "/v")] :=
  ⟨by decide, by decide⟩

/-- Claim C10 as amended: the slice access in `run` is within bounds exactly
when the loaded preferences contain at least one key under `last.ide` that
ends in `.hardwarepath`; with no such key the access is out of bounds (a
panic), so boundedness is not guaranteed for every successfully loaded
preferences file. -/
theorem ide_hardware_path_in_bounds_iff (props : List (String × String)) :
    (ideHardwarePathKey props).isSome = true
      ↔ ∃ kv ∈ subTree (subTree props "last") "ide",
          strHasSuffix kv.1 ".hardwarepath" = true := by
  simp only [ideHardwarePathKey, Option.isSome_iff_ne_none, ne_eq,
    List.getLast?_eq_none_iff, hardwarePathVariants, sortStrings_eq_nil_iff]
  simp [List.filter_eq_nil_iff, List.mem_map]

end Compile

